import Mathlib

/-!
Verification of the `dashify` filename-normalization engine.

The engine (`src/lib.rs`) is shallowly embedded here.  Strings are modelled
as lists of Unicode scalar values (`List Nat`); Rust's `char` predicates
(`is_ascii_lowercase`, …) become predicates on the scalar value.  Rust's
`str::to_lowercase` is modelled by the ASCII case map: every string that
reaches a lowercasing step in the engine is ASCII, because non-ASCII
filenames are exempted by the classifier before any rewriting happens.
The two `while`-style loops of the source (`collapse_mixed_separators`'s
run scanning and the `".."`-collapsing loop) are translated with an explicit
fuel argument equal to the string length, which bounds their iteration
count; fuel sufficiency is proved where needed.
-/

/-- A filename: the sequence of Unicode scalar values of its characters. -/
abbrev Str := List Nat

/-- Convert a Lean string literal to its scalar-value list (for concrete inputs). -/
def str (s : String) : Str := s.data.map Char.toNat

/-- Options for controlling dashify behavior (`DashifyOptions` in the source). -/
structure DashifyOptions where
  force_dash : Bool
deriving DecidableEq

def defaultOpts : DashifyOptions := ⟨false⟩

def forceDashOpts : DashifyOptions := ⟨true⟩

/-- Rust `char::is_ascii_lowercase`: `'a'..='z'`. -/
def isAsciiLowercase (c : Nat) : Bool := 97 ≤ c && c ≤ 122

/-- Rust `char::is_ascii_uppercase`: `'A'..='Z'`. -/
def isAsciiUppercase (c : Nat) : Bool := 65 ≤ c && c ≤ 90

/-- Rust `char::is_ascii_digit`: `'0'..='9'`. -/
def isAsciiDigit (c : Nat) : Bool := 48 ≤ c && c ≤ 57

/-- Rust `char::is_ascii_alphabetic`. -/
def isAsciiAlphabetic (c : Nat) : Bool := isAsciiUppercase c || isAsciiLowercase c

/-- Rust `char::is_ascii_alphanumeric`. -/
def isAsciiAlphanumeric (c : Nat) : Bool := isAsciiAlphabetic c || isAsciiDigit c

/-- Rust `char::is_ascii` (scalar value at most 0x7F). -/
def isAsciiCh (c : Nat) : Bool := c ≤ 127

/-- ASCII lowercase map; agrees with Rust `to_lowercase` on ASCII strings,
which are the only strings the engine ever lowercases. -/
def toLowerC (c : Nat) : Nat := if isAsciiUppercase c then c + 32 else c

def toLowerStr (l : Str) : Str := l.map toLowerC

/-- Whether `p` occurs at the front of `l` (Rust `str::starts_with`). -/
def startsWithL : Str → Str → Bool
  | [], _ => true
  | _ :: _, [] => false
  | a :: as_, b :: bs => a == b && startsWithL as_ bs

/-- Whether `p` occurs at the end of `l` (Rust `str::ends_with`). -/
def endsWithL (p l : Str) : Bool := startsWithL p.reverse l.reverse

/-- Whether `p` occurs as a contiguous substring of `l` (Rust `str::contains`). -/
def containsSub (p : Str) : Str → Bool
  | [] => p.isEmpty
  | c :: rest => startsWithL p (c :: rest) || containsSub p rest

/-- Substring before the first `'.'` — Rust `filename.split('.').next().unwrap_or(..)`. -/
def firstSegment (l : Str) : Str := l.takeWhile (fun c => c != 46)

/-- Source `is_dunder_pattern`: `__word__` optionally followed by `.ext`. -/
def is_dunder_pattern (filename : Str) : Bool :=
  let name := firstSegment filename
  if startsWithL [95, 95] name && endsWithL [95, 95] name && decide (name.length > 4) then
    let inner := (name.drop 2).take (name.length - 2 - 2)
    !inner.isEmpty
      && !(inner.head? == some 95)
      && !(inner.getLast? == some 95)
      && inner.all (fun c => isAsciiAlphanumeric c || c == 95)
  else false

/-- Source `is_clean_name`: only lowercase ASCII letters, digits, `-`, `_`, `.`. -/
def is_clean_name (name : Str) : Bool :=
  name.all (fun c => isAsciiLowercase c || isAsciiDigit c || c == 45 || c == 95 || c == 46)

/-- Source `has_camel_case`: some uppercase character immediately follows a lowercase one. -/
def has_camel_case : Str → Bool
  | a :: b :: rest => (isAsciiLowercase a && isAsciiUppercase b) || has_camel_case (b :: rest)
  | _ => false

/-- Source `has_letter_number_transition`: some adjacent letter/digit pair in either order. -/
def has_letter_number_transition : Str → Bool
  | a :: b :: rest =>
      (isAsciiAlphabetic a && isAsciiDigit b) || (isAsciiDigit a && isAsciiAlphabetic b)
        || has_letter_number_transition (b :: rest)
  | _ => false

/-- The blacklisted punctuation of `is_already_clean`. -/
def badChars : Str := [32, 43, 44, 40, 41, 91, 93, 123, 125, 39, 34, 64, 35, 36, 37, 38, 33]

/-- Source `is_already_clean`, rule by rule in source order. -/
def is_already_clean (filename : Str) (options : DashifyOptions) : Bool :=
  if filename.any isAsciiUppercase then false
  else if options.force_dash && filename.contains 95 then false
  else if containsSub [45, 45] filename || containsSub [95, 95, 95] filename then false
  else if containsSub [46, 46] filename && !startsWithL [46, 46] filename then false
  else if filename.any (fun c => badChars.contains c) then false
  else if containsSub [45, 95] filename || containsSub [95, 45] filename then false
  else if has_letter_number_transition (firstSegment filename) then false
  else true

/-- Source `is_all_caps_filename`: part before the first dot is ALL CAPS (plus `_`/`-`). -/
def is_all_caps_filename (filename : Str) : Bool :=
  let name := firstSegment filename
  !name.isEmpty
    && name.all (fun c => isAsciiUppercase c || c == 95 || c == 45)
    && name.any isAsciiUppercase
    && !(filename.contains 32)

/-- Character class `[a-z0-9-]` of the semver regex. -/
def semverSuffixClass (c : Nat) : Bool := isAsciiLowercase c || isAsciiDigit c || c == 45

/-- Final `\.[a-z]+$` of the semver regex. -/
def semverEnd (l : Str) : Bool :=
  match l with
  | 46 :: rest => !rest.isEmpty && rest.all isAsciiLowercase
  | _ => false

/-- Tail `(\.\d+)?(-[a-z0-9-]+)?\.[a-z]+$` of the semver regex.  Each optional
group is forced when its first character is present (skipping it would make
the following mandatory literal fail), so matching is deterministic. -/
def semverAfterMinor (l : Str) : Bool :=
  let l1 :=
    match l with
    | 46 :: c :: rest => if isAsciiDigit c then (c :: rest).dropWhile isAsciiDigit else l
    | _ => l
  match l1 with
  | 45 :: rest =>
    let run := rest.takeWhile semverSuffixClass
    if run.isEmpty then false else semverEnd (rest.dropWhile semverSuffixClass)
  | _ => semverEnd l1

/-- Source `is_semver_style`: the regex `^v?\d+\.\d+(\.\d+)?(-[a-z0-9-]+)?\.[a-z]+$`. -/
def is_semver_style (filename : Str) : Bool :=
  let l := match filename with | 118 :: rest => rest | _ => filename
  let d1 := l.takeWhile isAsciiDigit
  let r1 := l.dropWhile isAsciiDigit
  if d1.isEmpty then false
  else
    match r1 with
    | 46 :: r2 =>
      let d2 := r2.takeWhile isAsciiDigit
      if d2.isEmpty then false else semverAfterMinor (r2.dropWhile isAsciiDigit)
    | _ => false

/-- Part of `l` before its last `'.'`, and the part after it (Rust `rsplit_once('.')`). -/
def splitAtLastDot (l : Str) : Option (Str × Str) :=
  let revAfter := l.reverse.takeWhile (fun c => c != 46)
  match l.reverse.dropWhile (fun c => c != 46) with
  | [] => none
  | _ :: beforeRev => some (beforeRev.reverse, revAfter.reverse)

/-- Everything before the last dot; `l` itself if there is none. -/
def beforeLastDot (l : Str) : Str :=
  match splitAtLastDot l with
  | some (n, _) => n
  | none => l

/-- The `.tar.gz` / `.tar.bz2` / `.tar.xz` exemption of `should_leave_alone`. -/
def tarRule (filename : Str) : Bool :=
  if endsWithL (str ".tar.gz") filename || endsWithL (str ".tar.bz2") filename
      || endsWithL (str ".tar.xz") filename then
    is_clean_name (beforeLastDot (beforeLastDot filename))
  else false

/-- The hidden-file exemption: leading dot, no space, clean remainder with no
camel case in its first dot-delimited segment. -/
def hiddenCleanRule (filename : Str) : Bool :=
  match filename with
  | 46 :: rest =>
    !(filename.contains 32) && is_clean_name rest && !has_camel_case (firstSegment rest)
  | _ => false

/-- The extension-only exemption (`.txt`-style names). -/
def extOnlyRule (filename : Str) : Bool :=
  match filename with
  | 46 :: rest => !(rest.contains 46) && is_clean_name rest
  | _ => false

/-- The `"...txt"`-style exemption, including the source's outer guard. -/
def allDotsRule (filename : Str) : Bool :=
  if (filename.filter (fun c => c != 46)).isEmpty
      || (startsWithL [46] filename
          && (filename.drop 1).all (fun c => c == 46 || isAsciiLowercase c)) then
    let nonDotPart := filename.filter (fun c => c != 46)
    nonDotPart.all isAsciiLowercase
      && !(filename.contains 32)
      && startsWithL [46, 46, 46] filename
  else false

/-- Source `should_leave_alone`: the ordered exemption classifier. -/
def should_leave_alone (filename : Str) (options : DashifyOptions) : Bool :=
  if filename.head? == some 32 || filename.getLast? == some 32 then true
  else if is_dunder_pattern filename then true
  else if !(filename.all isAsciiCh) then true
  else if hiddenCleanRule filename then true
  else if extOnlyRule filename then true
  else if allDotsRule filename then true
  else if is_already_clean filename options then true
  else if is_all_caps_filename filename then true
  else if is_semver_style filename then true
  else if tarRule filename then true
  else false

/-- Source `split_name_and_extension`: name/extension split with hidden-file handling. -/
def split_name_and_extension (filename : Str) : Str × Str :=
  match filename with
  | 46 :: rest =>
    match splitAtLastDot rest with
    | some (n, e) => (46 :: n, e)
    | none => (filename, [])
  | _ =>
    match splitAtLastDot filename with
    | some (n, e) => (n, e)
    | none => (filename, [])

/-- Inner loop of `split_camel_case`.  `prev` is the previous original
character, `runLower` the number of consecutive lowercase characters of the
original string ending at `prev` (the count the source recomputes by
scanning backwards at each lower→upper transition). -/
def sccAux (prev : Nat) (runLower : Nat) : Str → Str
  | [] => []
  | c :: rest =>
    let emit :=
      if isAsciiLowercase prev && isAsciiUppercase c then
        if 2 ≤ runLower then [45, c] else [c]
      else if isAsciiUppercase prev && isAsciiUppercase c
          && (match rest.head? with | some d => isAsciiLowercase d | none => false) then
        [45, c]
      else [c]
    emit ++ sccAux c (if isAsciiLowercase c then runLower + 1 else 0) rest

/-- Source `split_camel_case`. -/
def split_camel_case (s : Str) : Str :=
  match s with
  | [] => []
  | c :: rest => c :: sccAux c (if isAsciiLowercase c then 1 else 0) rest

/-- Inner loop of `split_numbers`; `prev` is the previous original character. -/
def snAux (prev : Nat) : Str → Str
  | [] => []
  | c :: rest =>
    let emit :=
      if isAsciiAlphabetic prev && isAsciiDigit c then
        if prev != 45 && prev != 95 then [45, c] else [c]
      else if isAsciiDigit prev && isAsciiAlphabetic c then [45, c]
      else [c]
    emit ++ snAux c rest

/-- Source `split_numbers`. -/
def split_numbers (s : Str) : Str :=
  match s with
  | [] => []
  | c :: rest => c :: snAux c rest

/-- A separator character: `'-'` or `'_'`. -/
def sepCh (c : Nat) : Bool := c == 45 || c == 95

/-- Scan of `collapse_mixed_separators`, with explicit fuel; each step consumes
at least one character, so fuel `l.length` always suffices. -/
def cmsFuel : Nat → Str → Str
  | 0, l => l
  | _ + 1, [] => []
  | fuel + 1, c :: rest =>
    if sepCh c then
      let run := rest.takeWhile sepCh
      let rest' := rest.dropWhile sepCh
      (if c == 45 || run.contains 45 then 45 else 95) :: cmsFuel fuel rest'
    else c :: cmsFuel fuel rest

/-- Source `collapse_mixed_separators`. -/
def collapse_mixed_separators (l : Str) : Str := cmsFuel l.length l

/-- Regex `t+ -> t` (used with `-` and `_`): collapse runs of `t`, with fuel. -/
def crFuel (t : Nat) : Nat → Str → Str
  | 0, l => l
  | _ + 1, [] => []
  | fuel + 1, c :: rest =>
    if c == t then c :: crFuel t fuel (rest.dropWhile (fun x => x == t))
    else c :: crFuel t fuel rest

def collapseRuns (t : Nat) (l : Str) : Str := crFuel t l.length l

/-- One pass of Rust `str::replace("..", ".")`: non-overlapping, left to
right — whenever the next two characters are both dots, they are replaced by
one dot and the scan continues after them. -/
def replaceDotDot : Str → Str
  | [] => []
  | [c] => [c]
  | c :: d :: rest =>
    if c == 46 && d == 46 then 46 :: replaceDotDot rest
    else c :: replaceDotDot (d :: rest)

/-- The `while processed.contains("..")` loop, with fuel; each iteration
strictly shortens the string, so fuel `l.length` suffices. -/
def collapseDotsFuel : Nat → Str → Str
  | 0, l => l
  | fuel + 1, l => if containsSub [46, 46] l then collapseDotsFuel fuel (replaceDotDot l) else l

def collapseDots (l : Str) : Str := collapseDotsFuel l.length l

/-- Rust `trim_end_matches(t)`: drop all trailing occurrences of `t`. -/
def trimEndCh (t : Nat) : Str → Str
  | [] => []
  | c :: rest =>
    let r := trimEndCh t rest
    if r.isEmpty && c == t then [] else c :: r

/-- Rust `trim_start_matches`-side of `trim_matches(t)`. -/
def trimStartCh (t : Nat) (l : Str) : Str := l.dropWhile (fun c => c == t)

/-- The punctuation set replaced by dashes in step 4 of `process_name`. -/
def dashChars : Str := [32, 43, 44, 40, 41, 39, 34, 64, 35, 36, 37, 38, 33]

/-- Source `process_name`: the ten pipeline steps in order. -/
def process_name (name : Str) (options : DashifyOptions) : Str :=
  let pfx : Str := if name.head? == some 46 then [46] else []
  let working_name : Str := if name.head? == some 46 then name.tail else name
  let original_ends_with_separator :=
    working_name.getLast? == some 45 || working_name.getLast? == some 95
  let p1 := split_camel_case working_name
  let p2 := split_numbers p1
  let p3 := p2.filter (fun c => !(c == 91 || c == 93 || c == 123 || c == 125))
  let p4 := p3.map (fun c => if dashChars.contains c then 45 else c)
  let p45 := if options.force_dash then p4.map (fun c => if c == 95 then 45 else c) else p4
  let p5 := collapse_mixed_separators p45
  let p6 := collapseRuns 45 p5
  let p7 := if !options.force_dash then collapseRuns 95 p6 else p6
  let p8 := collapseDots p7
  let p9 := if !original_ends_with_separator then trimEndCh 95 (trimEndCh 45 p8) else p8
  pfx ++ toLowerStr p9

/-- Source `dashify`: classify, split, rewrite, reassemble. -/
def dashify (filename : Str) (options : DashifyOptions) : Str :=
  if should_leave_alone filename options then filename
  else
    let ne := split_name_and_extension filename
    let processed := process_name ne.1 options
    if ne.2.isEmpty then processed
    else processed ++ 46 :: toLowerStr ne.2

/-- The string transformation of `rename_file` in `src/main.rs`.  Its first
regex is `r"[,_ ]|\\(|\\)"`: the doubled backslash escapes the backslash
character, so the pattern matches `,`, `_`, a space, or a backslash
optionally followed by a second backslash (leftmost-first matching takes the
empty alternative, i.e. single backslashes) — parentheses are NOT matched.
Then dash runs are collapsed, dashes are trimmed from both ends
(`trim_matches('-')`), and the result is lowercased (ASCII model, as for the
engine). -/
def rename_transform (file_name : Str) : Str :=
  let p1 := file_name.map (fun c => if c == 44 || c == 95 || c == 32 || c == 92 then 45 else c)
  let p2 := collapseRuns 45 p1
  let p3 := trimStartCh 45 (trimEndCh 45 p2)
  toLowerStr p3

/-- Character of `s` at position `i` (0 when out of range). -/
def charAt (s : Str) (i : Nat) : Nat := s[i]?.getD 0

/-- Positional statement of the number-boundary rule, taken from the spec's
words: dash before position `i` iff letter→digit with the letter not a dash
or underscore, or digit→letter. -/
def numberDashAt (s : Str) (i : Nat) : Bool :=
  match i with
  | 0 => false
  | j + 1 =>
    (isAsciiAlphabetic (charAt s j)
        && (isAsciiDigit (charAt s (j + 1))
          && ((charAt s j != 45) && (charAt s j != 95))))
      || (isAsciiDigit (charAt s j) && isAsciiAlphabetic (charAt s (j + 1)))

/-- The number-boundary stage described positionally: each character of `s`,
preceded by a dash exactly at the positions `numberDashAt` selects. -/
def snSpec (s : Str) : Str :=
  ((List.range s.length).map
    (fun i => (if numberDashAt s i then [45] else []) ++ [charAt s i])).flatten

/-- Number of consecutive lowercase characters of `s` immediately preceding
position `i` (the count `split_camel_case` recomputes by backward scan). -/
def lowerRunEndingAt (s : Str) (i : Nat) : Nat :=
  ((s.take i).reverse.takeWhile isAsciiLowercase).length

/-- Positional statement of the camel-case rule, taken from the spec's words:
dash before position `i` iff lower→upper with at least two consecutive
lowercase characters before, or upper→upper with a lowercase lookahead. -/
def camelDashAt (s : Str) (i : Nat) : Bool :=
  match i with
  | 0 => false
  | j + 1 =>
    if isAsciiLowercase (charAt s j) && isAsciiUppercase (charAt s (j + 1)) then
      decide (2 ≤ lowerRunEndingAt s (j + 1))
    else if isAsciiUppercase (charAt s j) && isAsciiUppercase (charAt s (j + 1))
        && (match s[j + 2]? with | some e => isAsciiLowercase e | none => false) then
      true
    else false

/-- The camel-case stage described positionally. -/
def sccSpec (s : Str) : Str :=
  ((List.range s.length).map
    (fun i => (if camelDashAt s i then [45] else []) ++ [charAt s i])).flatten

/-- No two adjacent characters are both separators (`-`/`_`). -/
def noAdjSep : Str → Bool
  | a :: b :: rest => !(sepCh a && sepCh b) && noAdjSep (b :: rest)
  | _ => true

/-- The head of a list is not a separator (vacuously true for `[]`). -/
def headNotSep (l : Str) : Bool :=
  match l.head? with
  | some c => !sepCh c
  | none => true

/-- Bounds-checked variant of `is_dunder_pattern`: returns `none` if the
source's byte slice `name[2 .. len-2]` would be out of bounds.  (The other
string slices of the source — `filename[1..]` in the classifier and the
`rfind`-based splits — are guarded by a leading-character match and are
structurally safe in this embedding.) -/
def is_dunder_pattern_checked (filename : Str) : Option Bool :=
  let name := firstSegment filename
  if startsWithL [95, 95] name && endsWithL [95, 95] name && decide (name.length > 4) then
    if 2 ≤ name.length - 2 && name.length - 2 ≤ name.length then
      let inner := (name.drop 2).take (name.length - 2 - 2)
      some (!inner.isEmpty
        && !(inner.head? == some 95)
        && !(inner.getLast? == some 95)
        && inner.all (fun c => isAsciiAlphanumeric c || c == 95))
    else none
  else some false

def should_leave_alone_checked (filename : Str) (options : DashifyOptions) : Option Bool := do
  let dunder ← is_dunder_pattern_checked filename
  some (if filename.head? == some 32 || filename.getLast? == some 32 then true
    else if dunder then true
    else if !(filename.all isAsciiCh) then true
    else if hiddenCleanRule filename then true
    else if extOnlyRule filename then true
    else if allDotsRule filename then true
    else if is_already_clean filename options then true
    else if is_all_caps_filename filename then true
    else if is_semver_style filename then true
    else if tarRule filename then true
    else false)

/-- Variant of `cmsFuel` that reports fuel exhaustion (a scan still running when the
fuel bound is reached) as `none` instead of stopping silently. -/
def cmsFuelC : Nat → Str → Option Str
  | 0, [] => some []
  | 0, _ :: _ => none
  | _ + 1, [] => some []
  | fuel + 1, c :: rest =>
    if sepCh c then
      let run := rest.takeWhile sepCh
      let rest' := rest.dropWhile sepCh
      (cmsFuelC fuel rest').map
        (fun r => (if c == 45 || run.contains 45 then 45 else 95) :: r)
    else (cmsFuelC fuel rest).map (fun r => c :: r)

/-- Variant of `crFuel` with fuel exhaustion reported as `none`. -/
def crFuelC (t : Nat) : Nat → Str → Option Str
  | 0, [] => some []
  | 0, _ :: _ => none
  | _ + 1, [] => some []
  | fuel + 1, c :: rest =>
    if c == t then (crFuelC t fuel (rest.dropWhile (fun x => x == t))).map (fun r => c :: r)
    else (crFuelC t fuel rest).map (fun r => c :: r)

/-- The `".."`-collapsing `while` loop with non-termination within the fuel
bound reported as `none`. -/
def collapseDotsFuelC : Nat → Str → Option Str
  | 0, l => if containsSub [46, 46] l then none else some l
  | fuel + 1, l =>
    if containsSub [46, 46] l then collapseDotsFuelC fuel (replaceDotDot l) else some l

def process_name_checked (name : Str) (options : DashifyOptions) : Option Str := do
  let pfx : Str := if name.head? == some 46 then [46] else []
  let working_name : Str := if name.head? == some 46 then name.tail else name
  let original_ends_with_separator :=
    working_name.getLast? == some 45 || working_name.getLast? == some 95
  let p1 := split_camel_case working_name
  let p2 := split_numbers p1
  let p3 := p2.filter (fun c => !(c == 91 || c == 93 || c == 123 || c == 125))
  let p4 := p3.map (fun c => if dashChars.contains c then 45 else c)
  let p45 := if options.force_dash then p4.map (fun c => if c == 95 then 45 else c) else p4
  let p5 ← cmsFuelC p45.length p45
  let p6 ← crFuelC 45 p5.length p5
  let p7 ← if !options.force_dash then crFuelC 95 p6.length p6 else some p6
  let p8 ← collapseDotsFuelC p7.length p7
  let p9 := if !original_ends_with_separator then trimEndCh 95 (trimEndCh 45 p8) else p8
  some (pfx ++ toLowerStr p9)

def dashify_checked (filename : Str) (options : DashifyOptions) : Option Str := do
  let leave ← should_leave_alone_checked filename options
  if leave then some filename
  else
    let ne := split_name_and_extension filename
    let processed ← process_name_checked ne.1 options
    some (if ne.2.isEmpty then processed else processed ++ 46 :: toLowerStr ne.2)

example : is_dunder_pattern (str "__init__.py") = true := by decide

example : is_dunder_pattern (str "___file___.txt") = false := by decide

example : is_semver_style (str "v2.0.1-release.txt") = true := by decide

example : is_semver_style (str "version2.0.txt") = false := by decide

example : is_semver_style (str "v2.0.txt") = true := by decide

example : should_leave_alone (str "README.md") defaultOpts = true := by decide

example : should_leave_alone (str "file.tar.gz") defaultOpts = true := by decide

example : should_leave_alone (str "...txt") defaultOpts = true := by decide

example : should_leave_alone (str ".hidden_file") defaultOpts = true := by decide

example : should_leave_alone (str "file_name.txt") defaultOpts = true := by decide

example : should_leave_alone (str "file_name.txt") forceDashOpts = false := by decide

example : should_leave_alone (str "café.txt") defaultOpts = true := by decide

example : should_leave_alone (str "file name.txt") defaultOpts = false := by decide

example : dashify (str "file name.txt") defaultOpts = str "file-name.txt" := by decide

example : dashify (str "camelCaseFileName.txt") defaultOpts = str "camel-case-file-name.txt" := by decide

example : dashify (str "XMLParser.java") defaultOpts = str "xml-parser.java" := by decide

example : dashify (str "getHTTPResponse.js") defaultOpts = str "get-http-response.js" := by decide

example : dashify (str "IOStream.py") defaultOpts = str "io-stream.py" := by decide

example : dashify (str "iPhone.txt") defaultOpts = str "iphone.txt" := by decide

example : dashify (str "-_-.txt") defaultOpts = str "-.txt" := by decide

example : dashify (str "file___name.txt") defaultOpts = str "file_name.txt" := by decide

example : dashify (str "file - name.txt") defaultOpts = str "file-name.txt" := by decide

example : dashify (str "--file--.txt") defaultOpts = str "-file-.txt" := by decide

example : dashify (str "___file___.txt") defaultOpts = str "_file_.txt" := by decide

example : dashify (str "__init__.py") defaultOpts = str "__init__.py" := by decide

example : dashify (str "file(name).txt") defaultOpts = str "file-name.txt" := by decide

example : dashify (str "file[name].txt") defaultOpts = str "filename.txt" := by decide

example : dashify (str "FILE NAME.TXT") defaultOpts = str "file-name.txt" := by decide

example : dashify (str "README.md") defaultOpts = str "README.md" := by decide

example : dashify (str "file123name.txt") defaultOpts = str "file-123-name.txt" := by decide

example : dashify (str "File2Name.txt") defaultOpts = str "file-2-name.txt" := by decide

example : dashify (str "version2.0.txt") defaultOpts = str "version-2.0.txt" := by decide

example : dashify (str "v2.0.1-release.txt") defaultOpts = str "v2.0.1-release.txt" := by decide

example : dashify (str "My Document.PDF") defaultOpts = str "my-document.pdf" := by decide

example : dashify (str "My.Document.Name.txt") defaultOpts = str "my.document.name.txt" := by decide

example : dashify (str "no_extension") defaultOpts = str "no_extension" := by decide

example : dashify (str ".Hidden File.txt") defaultOpts = str ".hidden-file.txt" := by decide

example : dashify (str "a.txt") defaultOpts = str "a.txt" := by decide

example : dashify (str "-.txt") defaultOpts = str "-.txt" := by decide

example : dashify (str ".txt") defaultOpts = str ".txt" := by decide

example : dashify (str "file..name.txt") defaultOpts = str "file.name.txt" := by decide

example : dashify (str " file.txt") defaultOpts = str " file.txt" := by decide

example : dashify (str "file.txt ") defaultOpts = str "file.txt " := by decide

example : dashify (str "Über-Datei.txt") defaultOpts = str "Über-Datei.txt" := by decide

example : dashify (str "already-dashified.txt") defaultOpts = str "already-dashified.txt" := by decide

example : dashify (str "Already-Dashified.txt") defaultOpts = str "already-dashified.txt" := by decide

example : dashify (str "file_name.txt") forceDashOpts = str "file-name.txt" := by decide

example : dashify (str "file__name.txt") forceDashOpts = str "file-name.txt" := by decide

example : dashify (str "some_snake_case.yaml") forceDashOpts = str "some-snake-case.yaml" := by decide

example : dashify (str "my_project_v2.md") forceDashOpts = str "my-project-v-2.md" := by decide

-- scratch: candidate counterexamples

example : dashify (str "a[1].txt") defaultOpts = str "a1.txt" := by decide

example : dashify (str "a1.txt") defaultOpts = str "a-1.txt" := by decide

example : is_already_clean (str "..a..b") defaultOpts = true := by decide

example : rename_transform (str "A.txt") = str "a.txt" := by decide

example : dashify (str "A.txt") defaultOpts = str "A.txt" := by decide

example : rename_transform (str "My File.txt") = str "my-file.txt" := by decide

-- scratch: the positional spec-side stage functions behave as intended
example : snSpec (str "file123name") = str "file-123-name" := by decide
example : snSpec (str "a-1") = str "a-1" := by decide
example : sccSpec (str "XMLParser") = str "XML-Parser" := by decide
example : sccSpec (str "iPhone") = str "iPhone" := by decide
example : sccSpec (str "camelCase") = str "camel-Case" := by decide
example : sccSpec (str "getHTTPResponse") = str "get-HTTP-Response" := by decide

/-- ASCII-lowercasing a character never yields an uppercase ASCII letter. -/
theorem isAsciiUppercase_toLowerC (c : Nat) : isAsciiUppercase (toLowerC c) = false := by
  unfold toLowerC
  split
  · rename_i h
    unfold isAsciiUppercase at h ⊢
    simp only [Bool.and_eq_true, decide_eq_true_eq] at h
    simp only [Bool.and_eq_false_iff, decide_eq_false_iff_not]
    omega
  · rename_i h
    unfold isAsciiUppercase at h ⊢
    simpa using h

/-- Exempt inputs are returned unchanged. -/
theorem dashify_of_leave_alone (x : Str) (o : DashifyOptions)
    (h : should_leave_alone x o = true) : dashify x o = x := by
  simp [dashify, h]

/-- C8: any non-ASCII character anywhere exempts the filename, for every
options value: `dashify` returns it unchanged. -/
theorem c8_nonascii_unchanged (x : Str) (o : DashifyOptions)
    (h : x.all isAsciiCh = false) : dashify x o = x := by
  have hs : should_leave_alone x o = true := by
    simp only [should_leave_alone, h, Bool.not_false, if_true, ite_self]
  simp [dashify, hs]

theorem c8_witness :
    (str "café.txt").all isAsciiCh = false
      ∧ dashify (str "café.txt") defaultOpts = str "café.txt" :=
  ⟨by decide, c8_nonascii_unchanged (str "café.txt") defaultOpts (by decide)⟩

/-- C9: a filename starting with a single dot, with no space, whose remainder
is clean and whose first dot-delimited segment has no lower→upper transition,
is returned unchanged by `dashify` for every options value. -/
theorem c9_hidden_clean_unchanged (rest : Str) (o : DashifyOptions)
    (_hsingle : rest.head? ≠ some 46)
    (hspace : (46 :: rest).contains 32 = false)
    (hclean : is_clean_name rest = true)
    (hcamel : has_camel_case (firstSegment rest) = false) :
    dashify (46 :: rest) o = 46 :: rest := by
  have hr : hiddenCleanRule (46 :: rest) = true := by
    simp only [hiddenCleanRule, hspace, hclean, hcamel, Bool.not_false, Bool.and_true,
      Bool.true_and, Bool.and_self]
  have hs : should_leave_alone (46 :: rest) o = true := by
    simp only [should_leave_alone, hr, if_true, ite_self]
  simp [dashify, hs]

theorem c9_witness :
    dashify (46 :: str "hidden_file") defaultOpts = 46 :: str "hidden_file" :=
  c9_hidden_clean_unchanged (str "hidden_file") defaultOpts
    (by decide) (by decide) (by decide) (by decide)

/-- C7: when the classifier does not exempt and the splitter yields a
non-empty extension, the output is the processed name joined to the
lowercased extension by a single dot, and that returned extension contains
no uppercase ASCII letter. -/
theorem c7_extension_lowercased (x : Str) (o : DashifyOptions)
    (h : should_leave_alone x o = false)
    (he : (split_name_and_extension x).2 ≠ []) :
    dashify x o
        = process_name (split_name_and_extension x).1 o
            ++ 46 :: toLowerStr (split_name_and_extension x).2
      ∧ (toLowerStr (split_name_and_extension x).2).all
          (fun c => !isAsciiUppercase c) = true := by
  constructor
  · simp only [dashify, h, Bool.false_eq_true, if_false]
    rw [if_neg]
    simp only [List.isEmpty_iff]
    exact he
  · unfold toLowerStr
    rw [List.all_eq_true]
    intro c hc
    rw [List.mem_map] at hc
    obtain ⟨d, _, rfl⟩ := hc
    simp [isAsciiUppercase_toLowerC]

theorem c7_witness :
    should_leave_alone (str "A B.TXT") defaultOpts = false
      ∧ (dashify (str "A B.TXT") defaultOpts
            = process_name (split_name_and_extension (str "A B.TXT")).1 defaultOpts
                ++ 46 :: toLowerStr (split_name_and_extension (str "A B.TXT")).2
          ∧ (toLowerStr (split_name_and_extension (str "A B.TXT")).2).all
              (fun c => !isAsciiUppercase c) = true) :=
  ⟨by decide, c7_extension_lowercased (str "A B.TXT") defaultOpts (by decide) (by decide)⟩

/-- C4 fails on the code: `..a..b` has consecutive dots outside its leading
dot run, yet `is_already_clean` accepts it — the source only tests
`starts_with("..")`, not the leading run. -/
theorem c4_counterexample :
    containsSub [46, 46] ((str "..a..b").dropWhile (fun c => c == 46)) = true
      ∧ is_already_clean (str "..a..b") defaultOpts = true := by decide

/-- C4 amended: `is_already_clean` returns false for every filename that
contains `..` and does not START with `..` (the code checks only the first
two characters, not the whole leading dot run). -/
theorem c4_amended (l : Str) (o : DashifyOptions)
    (h1 : containsSub [46, 46] l = true)
    (h2 : startsWithL [46, 46] l = false) :
    is_already_clean l o = false := by
  simp only [is_already_clean, h1, h2, Bool.not_false, Bool.and_self, if_true, ite_self]

theorem c4_witness :
    containsSub [46, 46] (str "a..b") = true
      ∧ startsWithL [46, 46] (str "a..b") = false
      ∧ is_already_clean (str "a..b") defaultOpts = false :=
  ⟨by decide, by decide, c4_amended (str "a..b") defaultOpts (by decide) (by decide)⟩

/-- C3 fails on the code: the CLI's `rename_file` does not apply the engine.
On `A.txt` the engine's ALL-CAPS exemption keeps the name, while the CLI
lowercases it. -/
theorem c3_counterexample :
    ¬(rename_transform (str "A.txt") = dashify (str "A.txt") defaultOpts) := by decide

/-- C3 amended: `rename_file` computes its own transformation — replace
`,`, `_`, space and backslash by dashes (its regex escapes the backslash, so
parentheses are untouched), collapse dash runs, trim dashes at both ends,
lowercase.  It agrees with the engine on some inputs but not in general. -/
theorem c3_amended :
    rename_transform (str "A.txt") = str "a.txt"
      ∧ dashify (str "A.txt") defaultOpts = str "A.txt"
      ∧ rename_transform (str "My File.txt") = str "my-file.txt"
      ∧ dashify (str "My File.txt") defaultOpts = str "my-file.txt"
      ∧ rename_transform (str "file+name.txt") = str "file+name.txt"
      ∧ dashify (str "file+name.txt") defaultOpts = str "file-name.txt" := by decide

/-- C1 fails on the code: bracket removal happens after number-boundary
splitting, so `a[1].txt` becomes `a1.txt`, which a second application turns
into `a-1.txt`. -/
theorem c1_counterexample :
    ¬(dashify (dashify (str "a[1].txt") defaultOpts) defaultOpts
        = dashify (str "a[1].txt") defaultOpts) := by decide

/-- C1 amended: idempotence holds for every exempt input (trivially), and for
each of the spec's tested literal cases with the stated options; it does not
hold for all strings. -/
theorem c1_amended :
    (∀ (x : Str) (o : DashifyOptions), should_leave_alone x o = true →
        dashify (dashify x o) o = dashify x o)
      ∧ dashify (dashify (str "__init__.py") defaultOpts) defaultOpts
          = dashify (str "__init__.py") defaultOpts
      ∧ dashify (dashify (str "README.md") defaultOpts) defaultOpts
          = dashify (str "README.md") defaultOpts
      ∧ dashify (dashify (str "v2.0.1-release.txt") defaultOpts) defaultOpts
          = dashify (str "v2.0.1-release.txt") defaultOpts
      ∧ dashify (dashify (str "café.txt") defaultOpts) defaultOpts
          = dashify (str "café.txt") defaultOpts
      ∧ dashify (dashify (str "...txt") defaultOpts) defaultOpts
          = dashify (str "...txt") defaultOpts
      ∧ dashify (dashify (str "file.tar.gz") defaultOpts) defaultOpts
          = dashify (str "file.tar.gz") defaultOpts
      ∧ dashify (dashify (str "camelCaseFileName.txt") defaultOpts) defaultOpts
          = dashify (str "camelCaseFileName.txt") defaultOpts
      ∧ dashify (dashify (str "XMLParser.java") defaultOpts) defaultOpts
          = dashify (str "XMLParser.java") defaultOpts
      ∧ dashify (dashify (str "iPhone.txt") defaultOpts) defaultOpts
          = dashify (str "iPhone.txt") defaultOpts
      ∧ dashify (dashify (str "file[name].txt") defaultOpts) defaultOpts
          = dashify (str "file[name].txt") defaultOpts
      ∧ dashify (dashify (str "file--name.txt") defaultOpts) defaultOpts
          = dashify (str "file--name.txt") defaultOpts
      ∧ dashify (dashify (str "File2Name.txt") defaultOpts) defaultOpts
          = dashify (str "File2Name.txt") defaultOpts
      ∧ dashify (dashify (str "file_name.txt") defaultOpts) defaultOpts
          = dashify (str "file_name.txt") defaultOpts
      ∧ dashify (dashify (str "file_name.txt") forceDashOpts) forceDashOpts
          = dashify (str "file_name.txt") forceDashOpts
      ∧ dashify (dashify (str "a.txt") defaultOpts) defaultOpts
          = dashify (str "a.txt") defaultOpts
      ∧ dashify (dashify (str "no_extension") defaultOpts) defaultOpts
          = dashify (str "no_extension") defaultOpts
      ∧ dashify (dashify (str "-.txt") defaultOpts) defaultOpts
          = dashify (str "-.txt") defaultOpts := by
  refine ⟨fun x o h => ?_, ?_, ?_, ?_, ?_, ?_, ?_, ?_, ?_, ?_, ?_, ?_, ?_, ?_, ?_, ?_, ?_, ?_⟩
  · have h1 : dashify x o = x := by simp [dashify, h]
    rw [h1]
    exact h1
  all_goals decide

theorem c1_witness :
    should_leave_alone (str "CHANGELOG.md") defaultOpts = true
      ∧ dashify (dashify (str "CHANGELOG.md") defaultOpts) defaultOpts
          = dashify (str "CHANGELOG.md") defaultOpts :=
  ⟨by decide, c1_amended.1 (str "CHANGELOG.md") defaultOpts (by decide)⟩

theorem charAt_append_left (pre : Str) (c : Nat) (t : Str) :
    charAt (pre ++ c :: t) pre.length = c := by
  unfold charAt
  rw [List.getElem?_append_right (le_refl _)]
  simp

theorem charAt_append_mid (pre : Str) (c d : Nat) (t : Str) :
    charAt (pre ++ c :: d :: t) (pre.length + 1) = d := by
  unfold charAt
  rw [List.getElem?_append_right (by omega)]
  have h : pre.length + 1 - pre.length = 1 := by omega
  rw [h]
  simp

theorem digit_of_alpha_false (c : Nat) (h : isAsciiAlphabetic c = true) :
    isAsciiDigit c = false := by
  unfold isAsciiAlphabetic isAsciiUppercase isAsciiLowercase at h
  unfold isAsciiDigit
  simp only [Bool.or_eq_true, Bool.and_eq_true, decide_eq_true_eq] at h
  simp only [Bool.and_eq_false_iff, decide_eq_false_iff_not]
  omega

/-- The emitted block of one `split_numbers` step agrees with the positional rule. -/
theorem snEmit_eq (c d : Nat) :
    (if isAsciiAlphabetic c && isAsciiDigit d then
        if c != 45 && c != 95 then ([45, d] : Str) else [d]
      else if isAsciiDigit c && isAsciiAlphabetic d then [45, d] else [d])
      = (if (isAsciiAlphabetic c && (isAsciiDigit d && ((c != 45) && (c != 95))))
            || (isAsciiDigit c && isAsciiAlphabetic d) then [45] else []) ++ [d] := by
  cases h1 : isAsciiAlphabetic c with
  | false => cases h3 : isAsciiDigit c && isAsciiAlphabetic d <;> simp [h1, h3]
  | true =>
    have hd : isAsciiDigit c = false := digit_of_alpha_false c h1
    cases h2 : isAsciiDigit d with
    | false => simp [h1, h2, hd]
    | true => cases h5 : c != 45 && c != 95 <;> simp_all

/-- The inner loop of `split_numbers` produces exactly the positionally
specified blocks for the tail it scans. -/
theorem snAux_spec : ∀ (rest pre : Str) (c : Nat),
    snAux c rest
      = ((List.range' (pre.length + 1) rest.length).map
          (fun i => (if numberDashAt (pre ++ c :: rest) i then [45] else [])
            ++ [charAt (pre ++ c :: rest) i])).flatten := by
  intro rest
  induction rest with
  | nil => intro pre c; rfl
  | cons d rest' ih =>
    intro pre c
    have hrw : pre ++ c :: d :: rest' = (pre ++ [c]) ++ d :: rest' := by
      simp
    have hlen : (pre ++ [c]).length = pre.length + 1 := by simp
    have hstep := ih (pre ++ [c]) d
    rw [hlen] at hstep
    rw [hrw]
    rw [show (d :: rest').length = rest'.length + 1 from rfl, List.range'_succ,
      List.map_cons, List.flatten_cons]
    have hc : charAt ((pre ++ [c]) ++ d :: rest') (pre.length + 1) = d := by
      rw [← hlen]; exact charAt_append_left (pre ++ [c]) d rest'
    have hprev : charAt ((pre ++ [c]) ++ d :: rest') pre.length = c := by
      rw [← hrw]; exact charAt_append_left pre c (d :: rest')
    have hnd : numberDashAt ((pre ++ [c]) ++ d :: rest') (pre.length + 1)
        = ((isAsciiAlphabetic c && (isAsciiDigit d && ((c != 45) && (c != 95))))
            || (isAsciiDigit c && isAsciiAlphabetic d)) := by
      simp only [numberDashAt, hprev, hc]
    rw [hnd, hc]
    show (if isAsciiAlphabetic c && isAsciiDigit d then
            if c != 45 && c != 95 then ([45, d] : Str) else [d]
          else if isAsciiDigit c && isAsciiAlphabetic d then [45, d] else [d])
        ++ snAux d rest' = _
    rw [snEmit_eq c d, hstep]

theorem lowerRun_succ (s : Str) (i : Nat) (h : i < s.length) :
    lowerRunEndingAt s (i + 1)
      = if isAsciiLowercase (charAt s i) then lowerRunEndingAt s i + 1 else 0 := by
  have ha : s[i]? = some s[i] := List.getElem?_eq_getElem h
  have hc : charAt s i = s[i] := by simp [charAt, ha]
  unfold lowerRunEndingAt
  rw [List.take_succ, ha, hc]
  simp only [Option.toList_some, List.reverse_append, List.reverse_cons, List.reverse_nil,
    List.nil_append, List.singleton_append]
  rw [List.takeWhile_cons]
  cases hl : isAsciiLowercase s[i] <;> simp [hl]

/-- The emitted block of one `split_camel_case` step agrees with the
positional rule. -/
theorem sccEmit_eq (c d : Nat) (R : Nat) (nx : Bool) :
    (if isAsciiLowercase c && isAsciiUppercase d then
        if 2 ≤ R then ([45, d] : Str) else [d]
      else if isAsciiUppercase c && isAsciiUppercase d && nx then [45, d] else [d])
      = (if (if isAsciiLowercase c && isAsciiUppercase d then decide (2 ≤ R)
            else if isAsciiUppercase c && isAsciiUppercase d && nx then true
            else false)
          then [45] else []) ++ [d] := by
  cases h1 : isAsciiLowercase c && isAsciiUppercase d with
  | false => cases h2 : isAsciiUppercase c && isAsciiUppercase d && nx <;> simp [h1, h2]
  | true => by_cases h2 : 2 ≤ R <;> simp [h1, h2]

/-- The inner loop of `split_camel_case` produces exactly the positionally
specified blocks for the tail it scans, given the run-length invariant. -/
theorem sccAux_spec : ∀ (rest pre : Str) (c : Nat),
    sccAux c (lowerRunEndingAt (pre ++ c :: rest) (pre.length + 1)) rest
      = ((List.range' (pre.length + 1) rest.length).map
          (fun i => (if camelDashAt (pre ++ c :: rest) i then [45] else [])
            ++ [charAt (pre ++ c :: rest) i])).flatten := by
  intro rest
  induction rest with
  | nil => intro pre c; rfl
  | cons d rest' ih =>
    intro pre c
    have hrw : pre ++ c :: d :: rest' = (pre ++ [c]) ++ d :: rest' := by simp
    have hlen : (pre ++ [c]).length = pre.length + 1 := by simp
    rw [hrw]
    have hcur : charAt ((pre ++ [c]) ++ d :: rest') (pre.length + 1) = d := by
      rw [← hlen]; exact charAt_append_left (pre ++ [c]) d rest'
    have hprev : charAt ((pre ++ [c]) ++ d :: rest') pre.length = c := by
      rw [← hrw]; exact charAt_append_left pre c (d :: rest')
    have hnext : ((pre ++ [c]) ++ d :: rest')[pre.length + 2]? = rest'.head? := by
      rw [List.getElem?_append_right (by rw [hlen]; omega), hlen]
      rw [show pre.length + 2 - (pre.length + 1) = 1 from by omega]
      cases rest' <;> simp
    have hlt : pre.length + 1 < ((pre ++ [c]) ++ d :: rest').length := by
      simp
    have hrun := lowerRun_succ ((pre ++ [c]) ++ d :: rest') (pre.length + 1) hlt
    rw [hcur] at hrun
    have hcd : camelDashAt ((pre ++ [c]) ++ d :: rest') (pre.length + 1)
        = (if isAsciiLowercase c && isAsciiUppercase d then
            decide (2 ≤ lowerRunEndingAt ((pre ++ [c]) ++ d :: rest') (pre.length + 1))
          else if isAsciiUppercase c && isAsciiUppercase d
              && (match rest'.head? with | some e => isAsciiLowercase e | none => false) then
            true
          else false) := by
      simp only [camelDashAt, hprev, hcur, hnext]
    rw [show (d :: rest').length = rest'.length + 1 from rfl, List.range'_succ,
      List.map_cons, List.flatten_cons, hcd, hcur]
    show (if isAsciiLowercase c && isAsciiUppercase d then
            if 2 ≤ lowerRunEndingAt ((pre ++ [c]) ++ d :: rest') (pre.length + 1) then
              ([45, d] : Str)
            else [d]
          else if isAsciiUppercase c && isAsciiUppercase d
              && (match rest'.head? with | some e => isAsciiLowercase e | none => false) then
            [45, d]
          else [d])
        ++ sccAux d (if isAsciiLowercase d then
            lowerRunEndingAt ((pre ++ [c]) ++ d :: rest') (pre.length + 1) + 1 else 0) rest'
        = _
    rw [sccEmit_eq c d]
    have hstep := ih (pre ++ [c]) d
    rw [hlen] at hstep
    rw [hrun] at hstep
    rw [hstep]

/-- C5: the camel-case stage inserts a dash exactly where the spec's two
positional rules say (lower→upper with a run of at least two lowercase
characters before; upper→upper with lowercase lookahead), nowhere else, and
never before the first character — with the stated consequences for
`XMLParser.java` and `iPhone.txt`. -/
theorem c5_split_camel_case_spec :
    (∀ s : Str, split_camel_case s = sccSpec s)
      ∧ dashify (str "XMLParser.java") defaultOpts = str "xml-parser.java"
      ∧ dashify (str "iPhone.txt") defaultOpts = str "iphone.txt" := by
  refine ⟨fun s => ?_, by decide, by decide⟩
  cases s with
  | nil => rfl
  | cons c rest =>
    unfold sccSpec
    rw [show (c :: rest).length = rest.length + 1 from rfl, List.range_eq_range',
      List.range'_succ, List.map_cons, List.flatten_cons]
    have h0 : camelDashAt (c :: rest) 0 = false := rfl
    have hc0 : charAt (c :: rest) 0 = c := by simp [charAt]
    rw [h0, hc0]
    have hinit : lowerRunEndingAt (c :: rest) 1 = if isAsciiLowercase c then 1 else 0 := by
      unfold lowerRunEndingAt
      rw [show (c :: rest).take 1 = [c] from rfl]
      cases h : isAsciiLowercase c <;> simp [List.takeWhile_cons, h]
    have haux := sccAux_spec rest [] c
    simp only [List.nil_append, List.length_nil, Nat.zero_add] at haux
    rw [hinit] at haux
    show c :: sccAux c (if isAsciiLowercase c then 1 else 0) rest = ([] ++ [c]) ++ _
    rw [haux]
    simp

theorem noAdjSep_cons_iff (a : Nat) (l : Str) :
    noAdjSep (a :: l)
      = ((match l.head? with | some b => !(sepCh a && sepCh b) | none => true)
          && noAdjSep l) := by
  cases l <;> simp [noAdjSep]

theorem noAdjSep_tail (a : Nat) (l : Str) (h : noAdjSep (a :: l) = true) :
    noAdjSep l = true := by
  cases l with
  | nil => rfl
  | cons b t =>
    simp only [noAdjSep, Bool.and_eq_true] at h
    exact h.2

theorem noAdjSep_pair (a b : Nat) (l : Str) (h : noAdjSep (a :: b :: l) = true) :
    (sepCh a && sepCh b) = false := by
  cases hx : (sepCh a && sepCh b) with
  | false => rfl
  | true =>
    exfalso
    simp only [noAdjSep, hx] at h
    simp at h

theorem noAdjSep_dropWhile (p : Nat → Bool) : ∀ l : Str,
    noAdjSep l = true → noAdjSep (l.dropWhile p) = true := by
  intro l
  induction l with
  | nil => intro h; exact h
  | cons a rest ih =>
    intro h
    rw [List.dropWhile_cons]
    by_cases hp : p a = true
    · rw [if_pos hp]; exact ih (noAdjSep_tail a rest h)
    · rw [if_neg hp]; exact h

theorem headNotSep_dropWhile_sep (l : Str) : headNotSep (l.dropWhile sepCh) = true := by
  induction l with
  | nil => rfl
  | cons a t ih =>
    rw [List.dropWhile_cons]
    by_cases h : sepCh a = true
    · rw [if_pos h]; exact ih
    · rw [if_neg h]
      simp only [headNotSep, List.head?_cons]
      simpa using h

theorem headNotSep_cmsFuel (f : Nat) (l : Str) (h : headNotSep l = true) :
    headNotSep (cmsFuel f l) = true := by
  cases f with
  | zero => exact h
  | succ f' =>
    cases l with
    | nil => rfl
    | cons c rest =>
      have hc : sepCh c = false := by
        simp only [headNotSep, List.head?_cons] at h
        simpa using h
      simp only [cmsFuel]
      rw [if_neg (by simp [hc])]
      simp only [headNotSep, List.head?_cons]
      simpa using hc

theorem noAdjSep_cmsFuel : ∀ (f : Nat) (l : Str),
    l.length ≤ f → noAdjSep (cmsFuel f l) = true := by
  intro f
  induction f with
  | zero =>
    intro l h
    have : l = [] := by
      cases l with
      | nil => rfl
      | cons a t => simp at h
    rw [this]; rfl
  | succ f' ih =>
    intro l h
    cases l with
    | nil => rfl
    | cons c rest =>
      simp only [cmsFuel]
      by_cases hc : sepCh c = true
      · rw [if_pos hc]
        have hlen : (rest.dropWhile sepCh).length ≤ f' := by
          have h1 : (rest.dropWhile sepCh).length ≤ rest.length :=
            List.Sublist.length_le (List.dropWhile_sublist sepCh)
          simp only [List.length_cons] at h
          omega
        have hrec := ih (rest.dropWhile sepCh) hlen
        have hhd := headNotSep_cmsFuel f' (rest.dropWhile sepCh) (headNotSep_dropWhile_sep rest)
        rw [noAdjSep_cons_iff]
        cases hh : (cmsFuel f' (rest.dropWhile sepCh)).head? with
        | none => simp [hrec]
        | some b =>
          have hb : sepCh b = false := by
            simp only [headNotSep, hh] at hhd
            simpa using hhd
          simp [hb, hrec]
      · rw [if_neg hc]
        have hrec := ih rest (by simp only [List.length_cons] at h; omega)
        rw [noAdjSep_cons_iff]
        cases hh : (cmsFuel f' rest).head? with
        | none => simp [hrec]
        | some b => simp [hh, hrec, Bool.eq_false_iff.mpr hc]

theorem headPres_crFuel (t f : Nat) (l : Str) : (crFuel t f l).head? = l.head? := by
  cases f with
  | zero => rfl
  | succ f' =>
    cases l with
    | nil => rfl
    | cons c rest =>
      simp only [crFuel]
      split <;> rfl

theorem noAdjSep_crFuel (t : Nat) : ∀ (f : Nat) (l : Str),
    noAdjSep l = true → noAdjSep (crFuel t f l) = true := by
  intro f
  induction f with
  | zero => intro l h; exact h
  | succ f' ih =>
    intro l h
    cases l with
    | nil => rfl
    | cons c rest =>
      simp only [crFuel]
      by_cases hct : (c == t) = true
      · rw [if_pos hct]
        have htail : noAdjSep rest = true := noAdjSep_tail c rest h
        have hdrop : noAdjSep (rest.dropWhile (fun x => x == t)) = true :=
          noAdjSep_dropWhile _ rest htail
        have hrec := ih _ hdrop
        rw [noAdjSep_cons_iff, headPres_crFuel]
        cases hsep : sepCh c with
        | false =>
          cases hh : (rest.dropWhile (fun x => x == t)).head? <;> simp [hsep, hrec, hh]
        | true =>
          cases rest with
          | nil => simpa using hrec
          | cons b rest2 =>
            have hp : (sepCh c && sepCh b) = false := noAdjSep_pair c b rest2 h
            have hb : sepCh b = false := by
              rw [hsep] at hp
              simpa using hp
            have hbt : (b == t) = false := by
              have hct' : c = t := by simpa using hct
              by_contra hx
              have hbt' : b = t := by
                cases hy : (b == t)
                · rw [hy] at hx; simp at hx
                · simpa using hy
              rw [hbt', ← hct'] at hb
              rw [hsep] at hb
              simp at hb
            have hdw : (b :: rest2).dropWhile (fun x => x == t) = b :: rest2 := by
              rw [List.dropWhile_cons, if_neg (by simp [hbt])]
            rw [hdw] at hrec ⊢
            simp [hb, hrec]
      · rw [if_neg hct]
        have hrec := ih rest (noAdjSep_tail c rest h)
        rw [noAdjSep_cons_iff, headPres_crFuel]
        cases rest with
        | nil => simp [hrec]
        | cons b rest2 =>
          have hp : (sepCh c && sepCh b) = false := noAdjSep_pair c b rest2 h
          simp [hp, hrec]

theorem head?_replaceDotDot : ∀ l : Str, (replaceDotDot l).head? = l.head? := by
  intro l
  match l with
  | [] => rfl
  | [c] => rfl
  | c :: d :: rest =>
    simp only [replaceDotDot]
    by_cases h : (c == 46 && d == 46) = true
    · rw [if_pos h]
      have hc : c = 46 := by
        have := (Bool.and_eq_true _ _).mp h
        simpa using this.1
      simp [hc]
    · rw [if_neg h]; rfl

theorem noAdjSep_replaceDotDot : ∀ l : Str,
    noAdjSep l = true → noAdjSep (replaceDotDot l) = true := by
  intro l
  induction l using replaceDotDot.induct with
  | case1 => intro h; exact h
  | case2 c => intro h; exact h
  | case3 c d rest hcd ih =>
    intro h
    simp only [replaceDotDot, if_pos hcd]
    have htail : noAdjSep rest = true := noAdjSep_tail d rest (noAdjSep_tail c (d :: rest) h)
    rw [noAdjSep_cons_iff, head?_replaceDotDot]
    cases hh : rest.head? with
    | none => simp [ih htail]
    | some b => simp [hh, ih htail, sepCh]
  | case4 c d rest hcd ih =>
    intro h
    simp only [replaceDotDot, if_neg hcd]
    have htail : noAdjSep (d :: rest) = true := noAdjSep_tail c (d :: rest) h
    rw [noAdjSep_cons_iff, head?_replaceDotDot]
    have hp : (sepCh c && sepCh d) = false := noAdjSep_pair c d rest h
    simp [hp, ih htail]

theorem noAdjSep_collapseDotsFuel : ∀ (f : Nat) (l : Str),
    noAdjSep l = true → noAdjSep (collapseDotsFuel f l) = true := by
  intro f
  induction f with
  | zero => intro l h; exact h
  | succ f' ih =>
    intro l h
    simp only [collapseDotsFuel]
    split
    · exact ih _ (noAdjSep_replaceDotDot l h)
    · exact h

theorem trimEnd_head_or_nil (t : Nat) (l : Str) :
    trimEndCh t l = [] ∨ (trimEndCh t l).head? = l.head? := by
  cases l with
  | nil => left; rfl
  | cons c rest =>
    simp only [trimEndCh]
    split
    · left; rfl
    · right; rfl

theorem noAdjSep_trimEndCh (t : Nat) : ∀ l : Str,
    noAdjSep l = true → noAdjSep (trimEndCh t l) = true := by
  intro l
  induction l with
  | nil => intro h; exact h
  | cons c rest ih =>
    intro h
    have htail := ih (noAdjSep_tail c rest h)
    simp only [trimEndCh]
    split
    · rfl
    · rw [noAdjSep_cons_iff]
      rcases trimEnd_head_or_nil t rest with he | hh
      · rw [he]
        rw [he] at htail
        simp [htail]
      · rw [hh]
        cases rest with
        | nil => simp [htail]
        | cons b rest2 =>
          have hp : (sepCh c && sepCh b) = false := noAdjSep_pair c b rest2 h
          simp [hp, htail]

theorem sepCh_toLowerC (c : Nat) : sepCh (toLowerC c) = sepCh c := by
  unfold toLowerC
  split
  · rename_i h
    unfold isAsciiUppercase at h
    simp only [Bool.and_eq_true, decide_eq_true_eq] at h
    unfold sepCh
    have h1 : (c + 32 == 45) = false := by simp; omega
    have h2 : (c + 32 == 95) = false := by simp; omega
    have h3 : (c == 45) = false := by simp; omega
    have h4 : (c == 95) = false := by simp; omega
    rw [h1, h2, h3, h4]
  · rfl

theorem noAdjSep_toLowerStr : ∀ l : Str,
    noAdjSep l = true → noAdjSep (toLowerStr l) = true := by
  intro l
  induction l with
  | nil => intro h; exact h
  | cons a rest ih =>
    intro h
    have htail := ih (noAdjSep_tail a rest h)
    show noAdjSep (toLowerC a :: rest.map toLowerC) = true
    rw [noAdjSep_cons_iff]
    cases rest with
    | nil => rfl
    | cons b rest2 =>
      have hp : (sepCh a && sepCh b) = false := noAdjSep_pair a b rest2 h
      have htail' : noAdjSep (toLowerC b :: rest2.map toLowerC) = true := htail
      simp [sepCh_toLowerC, hp, htail']

theorem noAdjSep_cons_notsep (a : Nat) (l : Str) (ha : sepCh a = false)
    (h : noAdjSep l = true) : noAdjSep (a :: l) = true := by
  rw [noAdjSep_cons_iff]
  cases hh : l.head? <;> simp [hh, ha, h]

/-- Every name processed by the pipeline satisfies the no-adjacent-separator
invariant: mixed-run collapsing establishes it and every later stage
preserves it. -/
theorem noAdjSep_process_name (name : Str) (o : DashifyOptions) :
    noAdjSep (process_name name o) = true := by
  simp only [process_name]
  have base : ∀ l : Str, noAdjSep (collapse_mixed_separators l) = true := fun l =>
    noAdjSep_cmsFuel l.length l (le_refl _)
  have chain : ∀ (l : Str) (b : Bool),
      noAdjSep (toLowerStr (if b
        then trimEndCh 95 (trimEndCh 45 (collapseDots
          (if !o.force_dash
            then collapseRuns 95 (collapseRuns 45 (collapse_mixed_separators l))
            else collapseRuns 45 (collapse_mixed_separators l))))
        else collapseDots
          (if !o.force_dash
            then collapseRuns 95 (collapseRuns 45 (collapse_mixed_separators l))
            else collapseRuns 45 (collapse_mixed_separators l)))) = true := by
    intro l b
    have h6 : noAdjSep (collapseRuns 45 (collapse_mixed_separators l)) = true :=
      noAdjSep_crFuel 45 _ _ (base l)
    have h7 : noAdjSep (if !o.force_dash
        then collapseRuns 95 (collapseRuns 45 (collapse_mixed_separators l))
        else collapseRuns 45 (collapse_mixed_separators l)) = true := by
      split
      · exact noAdjSep_crFuel 95 _ _ h6
      · exact h6
    have h8 : noAdjSep (collapseDots (if !o.force_dash
        then collapseRuns 95 (collapseRuns 45 (collapse_mixed_separators l))
        else collapseRuns 45 (collapse_mixed_separators l))) = true :=
      noAdjSep_collapseDotsFuel _ _ h7
    apply noAdjSep_toLowerStr
    cases b with
    | false => simpa using h8
    | true =>
      simp only [if_pos rfl]
      exact noAdjSep_trimEndCh 95 _ (noAdjSep_trimEndCh 45 _ h8)
  by_cases hn : (name.head? == some 46) = true
  · rw [if_pos hn, if_pos hn]
    refine noAdjSep_cons_notsep 46 _ (by decide) ?_
    split
    · exact chain _ true
    · exact chain _ false
  · rw [if_neg hn, if_neg hn]
    simp only [List.nil_append]
    split
    · exact chain _ true
    · exact chain _ false

/-- C6: the number-boundary stage inserts a dash exactly at letter→digit
pairs whose letter is not a dash or underscore, and at every digit→letter
pair, and nowhere else: `split_numbers` equals the positional specification. -/
theorem c6_split_numbers_spec (s : Str) : split_numbers s = snSpec s := by
  cases s with
  | nil => rfl
  | cons c rest =>
    unfold snSpec
    rw [show (c :: rest).length = rest.length + 1 from rfl, List.range_eq_range',
      List.range'_succ, List.map_cons, List.flatten_cons]
    have h0 : numberDashAt (c :: rest) 0 = false := rfl
    have hc0 : charAt (c :: rest) 0 = c := by simp [charAt]
    rw [h0, hc0]
    show c :: snAux c rest = ([] ++ [c]) ++ _
    rw [snAux_spec rest [] c]
    simp

theorem is_dunder_pattern_checked_eq (filename : Str) :
    is_dunder_pattern_checked filename = some (is_dunder_pattern filename) := by
  simp only [is_dunder_pattern_checked, is_dunder_pattern]
  split
  · rename_i h
    simp only [Bool.and_eq_true, decide_eq_true_eq] at h
    have hg : (decide (2 ≤ (firstSegment filename).length - 2)
        && decide ((firstSegment filename).length - 2 ≤ (firstSegment filename).length))
          = true := by
      simp only [Bool.and_eq_true, decide_eq_true_eq]
      omega
    rw [if_pos hg]
  · rfl

theorem should_leave_alone_checked_eq (filename : Str) (o : DashifyOptions) :
    should_leave_alone_checked filename o = some (should_leave_alone filename o) := by
  unfold should_leave_alone_checked
  rw [is_dunder_pattern_checked_eq]
  rfl

theorem cmsFuelC_eq : ∀ (f : Nat) (l : Str), l.length ≤ f →
    cmsFuelC f l = some (cmsFuel f l) := by
  intro f
  induction f with
  | zero =>
    intro l h
    cases l with
    | nil => rfl
    | cons a t => simp at h
  | succ f' ih =>
    intro l h
    cases l with
    | nil => rfl
    | cons c rest =>
      simp only [cmsFuelC, cmsFuel]
      split
      · rw [ih _ (by
          have := List.Sublist.length_le (List.dropWhile_sublist (l := rest) sepCh)
          simp only [List.length_cons] at h
          omega)]
        rfl
      · rw [ih rest (by simp only [List.length_cons] at h; omega)]
        rfl

theorem crFuelC_eq (t : Nat) : ∀ (f : Nat) (l : Str), l.length ≤ f →
    crFuelC t f l = some (crFuel t f l) := by
  intro f
  induction f with
  | zero =>
    intro l h
    cases l with
    | nil => rfl
    | cons a t' => simp at h
  | succ f' ih =>
    intro l h
    cases l with
    | nil => rfl
    | cons c rest =>
      simp only [crFuelC, crFuel]
      split
      · rw [ih _ (by
          have := List.Sublist.length_le
            (List.dropWhile_sublist (l := rest) (fun x => x == t))
          simp only [List.length_cons] at h
          omega)]
        rfl
      · rw [ih rest (by simp only [List.length_cons] at h; omega)]
        rfl

theorem length_replaceDotDot_le : ∀ l : Str, (replaceDotDot l).length ≤ l.length := by
  intro l
  induction l using replaceDotDot.induct with
  | case1 => simp [replaceDotDot]
  | case2 c => simp [replaceDotDot]
  | case3 c d rest h ih =>
    simp only [replaceDotDot, if_pos h, List.length_cons]
    omega
  | case4 c d rest h ih =>
    simp only [replaceDotDot, if_neg h, List.length_cons]
    simp only [List.length_cons] at ih
    omega

theorem length_replaceDotDot_lt : ∀ l : Str,
    containsSub [46, 46] l = true → (replaceDotDot l).length < l.length := by
  intro l
  induction l using replaceDotDot.induct with
  | case1 => intro h; simp [containsSub] at h
  | case2 c =>
    intro h
    simp only [containsSub, startsWithL, List.isEmpty] at h
    simp at h
  | case3 c d rest h ih =>
    intro _
    simp only [replaceDotDot, if_pos h, List.length_cons]
    have := length_replaceDotDot_le rest
    omega
  | case4 c d rest h ih =>
    intro hc
    have hc' : containsSub [46, 46] (d :: rest) = true := by
      simp only [containsSub, startsWithL, Bool.or_eq_true, Bool.and_eq_true,
        beq_iff_eq] at hc ⊢
      rcases hc with ⟨h1, h2, -⟩ | hrest
      · exfalso
        rw [← h1, ← h2] at h
        simp at h
      · exact hrest
    simp only [replaceDotDot, if_neg h, List.length_cons]
    have := ih hc'
    simp only [List.length_cons] at this
    omega

theorem collapseDotsFuelC_eq : ∀ (f : Nat) (l : Str), l.length ≤ f →
    collapseDotsFuelC f l = some (collapseDotsFuel f l) := by
  intro f
  induction f with
  | zero =>
    intro l h
    have hl : l = [] := by
      cases l with
      | nil => rfl
      | cons a t => simp at h
    subst hl
    rfl
  | succ f' ih =>
    intro l h
    simp only [collapseDotsFuelC, collapseDotsFuel]
    split
    · rename_i hc
      exact ih _ (by have := length_replaceDotDot_lt l hc; omega)
    · rfl

theorem cmsC_eq (l : Str) : cmsFuelC l.length l = some (collapse_mixed_separators l) :=
  cmsFuelC_eq l.length l (le_refl _)

theorem crC_eq (t : Nat) (l : Str) : crFuelC t l.length l = some (collapseRuns t l) :=
  crFuelC_eq t l.length l (le_refl _)

theorem dotsC_eq (l : Str) : collapseDotsFuelC l.length l = some (collapseDots l) :=
  collapseDotsFuelC_eq l.length l (le_refl _)

theorem process_name_checked_eq (name : Str) (o : DashifyOptions) :
    process_name_checked name o = some (process_name name o) := by
  simp only [process_name_checked, process_name, Option.bind_eq_bind]
  rw [cmsC_eq]
  simp only [Option.some_bind]
  rw [crC_eq]
  simp only [Option.some_bind]
  by_cases hf : (!o.force_dash) = true
  · rw [if_pos hf, if_pos hf]
    rw [crC_eq]
    simp only [Option.some_bind]
    rw [dotsC_eq]
    simp only [Option.some_bind]
  · rw [if_neg hf, if_neg hf]
    simp only [Option.bind_eq_bind, Option.some_bind, Option.bind]
    rw [dotsC_eq]

/-- C2: the engine is total.  The checked model — in which the source's
byte-slice in the dunder classifier reports out-of-bounds access and the
three rewrite loops report running past their iteration bound — returns
`some (dashify x o)` on every input: no slice is out of bounds and every
loop terminates within `length` iterations. -/
theorem c2_dashify_total (x : Str) (o : DashifyOptions) :
    dashify_checked x o = some (dashify x o) := by
  simp only [dashify_checked, dashify, Option.bind_eq_bind]
  rw [should_leave_alone_checked_eq]
  simp only [Option.some_bind]
  by_cases h : should_leave_alone x o = true
  · rw [if_pos h, if_pos h]
  · rw [if_neg h, if_neg h]
    rw [process_name_checked_eq]
    simp only [Option.some_bind]

/-- C10: for inputs the classifier does not exempt, the part of the output
before the reattached extension — the processed name, leading dot included —
never contains two adjacent dash/underscore characters. -/
theorem c10_no_adjacent_separators (x : Str) (o : DashifyOptions)
    (h : should_leave_alone x o = false) :
    dashify x o
        = process_name (split_name_and_extension x).1 o
            ++ (if (split_name_and_extension x).2.isEmpty then []
                else 46 :: toLowerStr (split_name_and_extension x).2)
      ∧ noAdjSep (process_name (split_name_and_extension x).1 o) = true := by
  constructor
  · simp only [dashify, h, Bool.false_eq_true, if_false]
    split
    · simp
    · rfl
  · exact noAdjSep_process_name _ o

theorem c10_witness :
    should_leave_alone (str "Foo__Bar -_- Baz.TXT") defaultOpts = false
      ∧ (dashify (str "Foo__Bar -_- Baz.TXT") defaultOpts
            = process_name (split_name_and_extension (str "Foo__Bar -_- Baz.TXT")).1 defaultOpts
                ++ (if (split_name_and_extension (str "Foo__Bar -_- Baz.TXT")).2.isEmpty then []
                    else 46 :: toLowerStr (split_name_and_extension (str "Foo__Bar -_- Baz.TXT")).2)
          ∧ noAdjSep (process_name (split_name_and_extension (str "Foo__Bar -_- Baz.TXT")).1
              defaultOpts) = true) :=
  ⟨by decide, c10_no_adjacent_separators (str "Foo__Bar -_- Baz.TXT") defaultOpts (by decide)⟩
